import Mathlib

/-!
# Verification of SVD_sing against its specification

Shallow embedding of the two source files of the repository
(`src/SVD_sing/svd_sing.py` and `src/dataloaders/yelp.py`) together with
spec-modelled definitions for the helpers (`utils.splitKfolds`,
`utils.getTrainValid`, `scipy.sparse.linalg.svds`, the metric getters)
whose code is referenced by the driver but not present under `src/`.

Modelling conventions:
* A raw text line is embedded after tokenisation: each token is the
  result of Python `int()` on the raw string, i.e. `Option Int`
  (`none` = the conversion raised).  Indexing past the end of the token
  list models an `IndexError`.  All control flow of the source
  (try/except, skips, re-raises) is kept.
* Python dicts are embedded as functions `K → Option V`; assignment is
  pointwise update (later assignment wins).
* Fallible code returns `Except`.
-/

namespace SVDSing

/-- A tokenised input line: each entry is the result of Python `int()`
applied to the corresponding raw token (`none` when `int()` raises). -/
abbrev Line := List (Option Int)

/-! ## `dataloader.load` (src/dataloaders/yelp.py, lines 26-51) -/

/-- State accumulated by `dataloader.load` while looping over the rating
file: the dict `usr2itemsIndx` and the list `itemsList`. -/
structure LoadState where
  usr2itemsIndx : Int → Option (List Nat)
  itemsList : List Int

/-- The state at `load`'s entry: `usr2itemsIndx = {}`, `itemsList = []`. -/
def initLoadState : LoadState := ⟨fun _ => none, []⟩

/-- The fallible prefix of `load`'s try-block on one line:
`usr = int(line[0]); itemNum = int(line[1])`.  Returns `none` exactly
when Python would raise (IndexError on a missing token, ValueError on a
failed conversion); no state has been mutated at that point. -/
def parseRatingLine (line : Line) : Option (Int × Int) :=
  match line.getD 0 none, line.getD 1 none with
  | some usr, some itemNum => some (usr, itemNum)
  | _, _ => none

/-- One iteration of `load`'s loop body (yelp.py lines 30-47).  A line on
which parsing raises is caught by the bare `except` and skipped, leaving
the state unchanged; otherwise the user's list is extended with the
item's index (`itemsList.index(itemNum)` when present, else
`len(itemsList)` after appending). -/
def loadStep (s : LoadState) (line : Line) : LoadState :=
  match parseRatingLine line with
  | none => s
  | some (usr, itemNum) =>
    let prev : List Nat := (s.usr2itemsIndx usr).getD []
    let itemIndx : Nat :=
      if itemNum ∈ s.itemsList then s.itemsList.indexOf itemNum
      else s.itemsList.length
    let itemsList' : List Int :=
      if itemNum ∈ s.itemsList then s.itemsList
      else s.itemsList ++ [itemNum]
    { usr2itemsIndx := fun u =>
        if u = usr then some (prev ++ [itemIndx]) else s.usr2itemsIndx u,
      itemsList := itemsList' }

/-- The loop of `load` over the whole rating file. -/
def loadLoop (lines : List Line) : LoadState :=
  lines.foldl loadStep initLoadState

/-- The dict comprehension `{k: v for v, k in enumerate(itemsList)}`
(yelp.py line 50), rendered with Python semantics: entries are inserted
in enumeration order starting at index `i`, a later assignment to the
same key overwriting an earlier one. -/
def enumDict (i : Nat) : List Int → Int → Option Nat
  | [] => fun _ => none
  | y :: ys => fun x =>
    match enumDict (i + 1) ys x with
    | some j => some j
    | none => if x = y then some i else none

/-- `dataloader.load` (yelp.py lines 26-51): returns `usr2itemsIndx` and
the mapping built on line 50 (named `ind2ItemNum` in the source, though
it maps item numbers to indices). -/
def load (lines : List Line) : (Int → Option (List Nat)) × (Int → Option Nat) :=
  let s := loadLoop lines
  (s.usr2itemsIndx, enumDict 0 s.itemsList)

/-- The sequence of (usr, itemNum) pairs successfully parsed from the
rating file, in file order. -/
def parsedRatings (lines : List Line) : List (Int × Int) :=
  lines.filterMap parseRatingLine

/-- The item numbers successfully parsed from the rating file, in file
order (with repetitions). -/
def parsedItems (lines : List Line) : List Int :=
  (parsedRatings lines).map Prod.snd

/-- De-duplication keeping the first occurrence of each value, written as
the same left fold that `load` performs on `itemsList`. -/
def pushFirstOccs (acc : List Int) (l : List Int) : List Int :=
  l.foldl (fun a x => if x ∈ a then a else a ++ [x]) acc

/-! ## `dataloader.get_labels` (yelp.py, lines 54-70) -/

/-- One iteration of `get_labels`'s loop: `usr = int(line[0])`; when
`usr in usrs`, `usr2labels[usr] = [int(e) for i, e in enumerate(line[1:])]`.
Any exception is re-raised by the `except` clause (note the comprehension
is only evaluated when `usr in usrs`). -/
def getLabelsStep (usrs : List Int) (m : Int → Option (List Int)) (line : Line) :
    Except Unit (Int → Option (List Int)) :=
  match line.getD 0 none with
  | none => .error ()
  | some usr =>
    if usr ∈ usrs then
      match line.tail.mapM id with
      | none => .error ()
      | some labels => .ok (fun u => if u = usr then some labels else m u)
    else .ok m

/-- `dataloader.get_labels` (yelp.py lines 54-70): the dict
`usr2labels` accumulated over the label file, or an exception. -/
def get_labels (lines : List Line) (usrs : List Int) :
    Except Unit (Int → Option (List Int)) :=
  lines.foldlM (getLabelsStep usrs) (fun _ => none)

/-- yelp.py lines 89-90: `return 2 * 50`. -/
def gettotalLabelsNum : Nat := 2 * 50

/-! ## `dataloader.get_nonZeroCols` (yelp.py, lines 73-87) -/

/-- The comprehension `[i for i, e in enumerate(line[1:]) if int(e) != 0]`
applied to already-converted entries, enumerating from `i`. -/
def nonzeroIdxFrom (i : Nat) : List Int → List Nat
  | [] => []
  | e :: es => if e != 0 then i :: nonzeroIdxFrom (i + 1) es
               else nonzeroIdxFrom (i + 1) es

/-- One iteration of `get_nonZeroCols`'s loop: `usr = int(line[0])`;
`usr2nonZeroCols[usr] = [i for i, e in enumerate(line[1:]) if int(e) != 0]`
(no `usrs` filter here); any exception is re-raised. -/
def getNonZeroColsStep (m : Int → Option (List Nat)) (line : Line) :
    Except Unit (Int → Option (List Nat)) :=
  match line.getD 0 none with
  | none => .error ()
  | some usr =>
    match line.tail.mapM id with
    | none => .error ()
    | some es => .ok (fun u => if u = usr then some (nonzeroIdxFrom 0 es) else m u)

/-- `dataloader.get_nonZeroCols` (yelp.py lines 73-87). -/
def get_nonZeroCols (lines : List Line) :
    Except Unit (Int → Option (List Nat)) :=
  lines.foldlM getNonZeroColsStep (fun _ => none)

/-- The ascending list of positions at which a label vector is nonzero
(the spec-side description the nonzero-column lists are compared to). -/
def nonzeroPositions (labels : List Int) : List Nat :=
  (List.range labels.length).filter (fun i => labels.getD i 0 != 0)

/-! ## K-fold partitioning (`utils.splitKfolds`, `utils.getTrainValid`)

The module `utils` is not under `src/`; these are spec-modelled. -/

/-- Modelled from the spec: fold sizes of the k-fold partitioner, `n`
users split into `k` contiguous chunks of near-equal size (the first
`n % k` chunks take one extra element). -/
def foldSizes (n k : Nat) : List Nat :=
  (List.range k).map (fun i => n / k + if i < n % k then 1 else 0)

/-- Split a list into consecutive chunks of the given sizes. -/
def chunks : List Nat → List Nat → List (List Nat)
  | [], _ => []
  | sz :: szs, l => l.take sz :: chunks szs (l.drop sz)

/-- Modelled from the spec: `utils.splitKfolds` (called in svd_sing.py
line 122 as `splitKfolds(len(uniqUsrs), foldNum, random.shuffle)`; its
body is not under `src/`).  "splits the unique user set into foldNum
disjoint validation partitions with deterministic shuffling from a
seed": the user indices `0..n-1` are shuffled by the supplied shuffle
function and divided into `foldNum` chunks. -/
def splitKfolds (n foldNum : Nat) (shuffle : List Nat → List Nat) :
    List (List Nat) :=
  chunks (foldSizes n foldNum) (shuffle (List.range n))

/-- Modelled from the spec: the user components of `utils.getTrainValid`
(called in svd_sing.py line 128; its body is not under `src/`).  Fold
`ind` is the validation partition; the remaining folds, in order, are
the training partition.  Indices are resolved to users through
`uniqUsrs`.  The ratings/items components returned by the original are
not needed by the claims and are omitted. -/
def getTrainValid (kfolds : List (List Nat)) (ind : Nat)
    (uniqUsrs : List Int) : List Int × List Int :=
  let validIdx := kfolds.getD ind []
  let trainIdx := (kfolds.take ind ++ kfolds.drop (ind + 1)).flatten
  (trainIdx.map (fun i => uniqUsrs.getD i 0),
   validIdx.map (fun i => uniqUsrs.getD i 0))

/-! ## Seeded shuffling (`random.seed` / `random.shuffle`) -/

/-- Modelled from the spec: Python's global `random` generator.  Its
state is abstract; `random.seed(s)` (svd_sing.py line 52) resets it to
a value determined by `s` alone ("Reproducibility"). -/
structure PyRandom where
  state : Nat

/-- Modelled from the spec: a shuffling algorithm over the seeded
generator: `run st l` returns the shuffled list and would advance the
state; the result is a permutation of the input. -/
structure ShuffleAlg where
  run : Nat → List Nat → List Nat
  isPerm : ∀ st l, (run st l).Perm l

/-- `random.seed(int(argv[1]))` (svd_sing.py lines 51-52): the generator
state after seeding is a function of the integer seed only. -/
def randomSeed (stateOfSeed : Int → Nat) (s : Int) : PyRandom :=
  ⟨stateOfSeed s⟩

/-- The fold partition computed by one run of `main`: seed the global
generator from `argv[1]` (line 52), then `splitKfolds(len(uniqUsrs),
foldNum, random.shuffle)` (line 122). -/
def runSplit (alg : ShuffleAlg) (stateOfSeed : Int → Nat) (seed : Int)
    (n foldNum : Nat) : List (List Nat) :=
  splitKfolds n foldNum (alg.run (randomSeed stateOfSeed seed).state)

/-! ## `initLogReg` and the per-attribute training loop
(svd_sing.py lines 75-89 and 193-206) -/

/-- The configuration of the `sklearn.linear_model.LogisticRegression`
object built by `initLogReg`.  Numeric hyperparameters are embedded as
rationals (no arithmetic on them is performed by the claims). -/
structure LogRegConfig where
  penalty : String
  tol : Rat
  C : Rat
  maxIter : Nat
  solver : String
  multiClass : String
  deriving Repr, DecidableEq

/-- `initLogReg` (svd_sing.py lines 75-89).  `THRESH` comes from
`config` (not under `src/`) and is passed as a parameter. -/
def initLogReg (THRESH : Rat) (regularization : Rat) (maxIterNum : Nat) :
    LogRegConfig :=
  { penalty := "l2",
    tol := THRESH,
    C := 1 / regularization,
    maxIter := maxIterNum,
    solver := "sag",
    multiClass := "multinomial" }

/-- An SVD embedding row (numpy float entries are embedded as rationals;
the claims never compute with them). -/
abbrev Row := List Rat

/-- One call `logreg.fit(uTrain, attrs)` recorded with its classifier
configuration, design matrix and target vector. -/
structure FitCall where
  config : LogRegConfig
  X : List Row
  y : List Nat
  deriving Repr, DecidableEq

instance : Inhabited FitCall :=
  ⟨⟨initLogReg 0 1 0, [], []⟩⟩

/-- The per-attribute training loop (svd_sing.py lines 193-206): for
each `ind in range(attrsCnt)`, build a fresh classifier via `initLogReg`
and fit it on `uTrain` against
`attrs = [usr2NonzeroCols[usr][ind] for usr in usrs4Train]`
(a missing user or attribute, which would raise a KeyError/IndexError
in Python, is embedded with `getD` defaults). -/
def trainPerAttribute (THRESH LAMBDA : Rat) (MAX_TRAIN_NUM : Nat)
    (attrsCnt : Nat) (usrs4Train : List Int)
    (usr2NonzeroCols : Int → Option (List Nat)) (uTrain : List Row) :
    List FitCall :=
  (List.range attrsCnt).map (fun ind =>
    { config := initLogReg THRESH LAMBDA MAX_TRAIN_NUM,
      X := uTrain,
      y := usrs4Train.map (fun usr =>
        ((usr2NonzeroCols usr).getD []).getD ind 0) })

/-- A fitted classifier is a binary one when its training targets
contain exactly two distinct classes (the sense in which the spec calls
each per-attribute classifier "binary"). -/
def isBinaryFit (f : FitCall) : Prop :=
  f.y.dedup.length = 2

instance (f : FitCall) : Decidable (isBinaryFit f) := by
  unfold isBinaryFit; infer_instance

/-! ## The SVD call and its error handling (svd_sing.py lines 159-183) -/

/-- The shape of the `scipy.sparse.csc_matrix` built by
`loadToCSCMatrix` (entries are irrelevant to the claims). -/
structure CSC where
  rows : Nat
  cols : Nat
  deriving Repr, DecidableEq

/-- The Python exceptions reachable in the embedded fragment. -/
inductive PyError where
  | valueError
  deriving Repr, DecidableEq

/-- Modelled from the spec: `scipy.sparse.linalg.svds` is an external
library call; per its documented contract it requires
`1 <= k < min(A.shape)` and raises `ValueError` otherwise.  The
numerical content of a successful factorization is supplied as the
abstract function `numerics`. -/
def svds (numerics : CSC → Nat → List Row × List Rat × List Row)
    (A : CSC) (k : Nat) : Except PyError (List Row × List Rat × List Row) :=
  if 1 ≤ k ∧ k < min A.rows A.cols then .ok (numerics A k)
  else .error .valueError

/-- The `try`/`except ValueError` around the SVD call (svd_sing.py
lines 163-175): on `ValueError` the handler logs twice and executes a
bare `raise`, re-raising the same exception. -/
def mainSVDStep (numerics : CSC → Nat → List Row × List Rat × List Row)
    (all4svd : CSC) (SVD_K_NUM : Nat) :
    Except PyError (List Row × List Rat × List Row) :=
  match svds numerics all4svd SVD_K_NUM with
  | .error e => .error e
  | .ok r => .ok r

/-- `uTrain = uAll[:trainUsrsCnt, :]` (svd_sing.py line 177), with
`trainUsrsCnt = len(usrs4Train)` (line 176). -/
def uTrainOf (uAll : List Row) (usrs4Train : List Int) : List Row :=
  uAll.take usrs4Train.length

/-- `uValid = uAll[trainUsrsCnt:, :]` (svd_sing.py line 178). -/
def uValidOf (uAll : List Row) (usrs4Train : List Int) : List Row :=
  uAll.drop usrs4Train.length

/-! ## Stats collection (svd_sing.py lines 185-228) -/

/-- One entry of `dataStats` (as produced by `getDataStats` and filled
by `handlePrediction`): a name, the per-user predictions and prediction
probabilities, and the KPI dict computed on line 226. -/
structure StatsRecord where
  name : String
  u2predictions : Int → Option (List Int)
  u2probs : Int → Option (List Rat)
  KPIs : List (String × Rat)

/-- The `KPIArgs` dict built on svd_sing.py lines 219-225. -/
structure KPIArgs where
  usr2NonzeroCols : Int → Option (List Nat)
  u2predictions : Int → Option (List Int)
  totalLabelsNum : Nat
  rlPairsCnt : Nat
  u2probs : Int → Option (List Rat)

/-- Modelled from the spec: the six metric getters
(`getMicroF1ByCol`, `getOneError`, `getHammingLoss` from
`SNE_lab.utils`; `getRL`, `getCoverage`, `getAvgPrecision` from
`utils`) are external to `src/`; each is an abstract function of the
`KPIArgs`. -/
structure KPIGetters where
  getMicroF1ByCol : KPIArgs → Rat
  getOneError : KPIArgs → Rat
  getRL : KPIArgs → Rat
  getCoverage : KPIArgs → Rat
  getAvgPrecision : KPIArgs → Rat
  getHammingLoss : KPIArgs → Rat

/-- The `KPIArgs` built for one record `d` (svd_sing.py lines 219-225). -/
def argsOf (usr2NonzeroCols : Int → Option (List Nat))
    (totalLabelsNum rlPairsCnt : Nat) (d : StatsRecord) : KPIArgs :=
  ⟨usr2NonzeroCols, d.u2predictions, totalLabelsNum, rlPairsCnt, d.u2probs⟩

/-- `d['KPIs'] = {kpi: getter(KPIArgs) for kpi, getter in
KPI2getters.iteritems()}` (svd_sing.py line 226), with `KPI2getters`
the six-entry dict of lines 210-217, in its literal order. -/
def withKPIs (g : KPIGetters) (usr2NonzeroCols : Int → Option (List Nat))
    (totalLabelsNum rlPairsCnt : Nat) (d : StatsRecord) : StatsRecord :=
  let args := argsOf usr2NonzeroCols totalLabelsNum rlPairsCnt d
  { d with KPIs :=
      [("microF1", g.getMicroF1ByCol args),
       ("oneError", g.getOneError args),
       ("RL", g.getRL args),
       ("coverage", g.getCoverage args),
       ("avgPrec", g.getAvgPrecision args),
       ("hammingLoss", g.getHammingLoss args)] }

/-- The stats-collection loop (svd_sing.py lines 218-228): for each
record of `dataStats`, compute its KPI dict and immediately persist it
with `statevalidator.writeCSVStats(d)`.  Returns the processed records
and the CSV-write log extended by them, in loop order. -/
def collectStats (g : KPIGetters) (usr2NonzeroCols : Int → Option (List Nat))
    (totalLabelsNum rlPairsCnt : Nat) (dataStats : List StatsRecord)
    (written : List StatsRecord) : List StatsRecord × List StatsRecord :=
  dataStats.foldl
    (fun acc d =>
      let d' := withKPIs g usr2NonzeroCols totalLabelsNum rlPairsCnt d
      (acc.1 ++ [d'], acc.2 ++ [d']))
    ([], written)

/-! ## The per-fold loop of `main` (svd_sing.py lines 123-235) -/

/-- The data of `main` that is shared across folds (svd_sing.py lines
111-118): the rating triple sequences, the unique-user list and the two
label dicts. -/
structure MainData where
  usrs : List Int
  items : List Int
  ratings : List Rat
  uniqUsrs : List Int
  usr2labels : Int → Option (List Int)
  usr2NonzeroCols : Int → Option (List Nat)

/-- Modelled from the spec: the helpers called by the fold body whose
code is not under `src/` (`utils.loadToCSCMatrix`, the numerical part of
`scipy`'s `svds`, `utils.getDataStats`, `utils.handlePrediction`, and
the six metric getters).  Per the spec these are pure per-fold
computations ("No persistent storage engine, no concurrent mutation"),
so each is an abstract function of its arguments. -/
structure ExternalFns where
  loadToCSCMatrix : List Rat → List Int → List Int → List Int → CSC
  svdsNumerics : CSC → Nat → List Row × List Rat × List Row
  getDataStats : List Int → List Int → List StatsRecord
  handlePrediction : List StatsRecord → List Row → List Row → FitCall → List StatsRecord
  getters : KPIGetters

/-- One iteration of `main`'s fold loop (svd_sing.py lines 123-235):
split the fold's users, build the sparse matrix, run (guarded) SVD,
slice the embedding rows, fit one classifier per attribute, compute the
six KPIs per stats record and persist each record.  Returns the shared
data together with the extended CSV-write log, or propagates the
re-raised `ValueError`. -/
def foldIter (ext : ExternalFns) (SVD_K_NUM MAX_TRAIN_NUM : Nat)
    (LAMBDA THRESH : Rat) (attrsCnt totalLabelsNum rlPairsCnt : Nat)
    (d : MainData) (kfolds : List (List Nat)) (ind : Nat)
    (written : List StatsRecord) :
    Except PyError (MainData × List StatsRecord) :=
  let tv := getTrainValid kfolds ind d.uniqUsrs
  let usrs4Train := tv.1
  let usrs4Valid := tv.2
  let usrsShuffled := usrs4Train ++ usrs4Valid
  let all4svd := ext.loadToCSCMatrix d.ratings d.usrs usrsShuffled d.items
  match mainSVDStep ext.svdsNumerics all4svd SVD_K_NUM with
  | .error e => .error e
  | .ok (uAll, _sAll, _vtAll) =>
    let uTrain := uTrainOf uAll usrs4Train
    let uValid := uValidOf uAll usrs4Train
    let dataStats0 := ext.getDataStats usrs4Train usrs4Valid
    let fits := trainPerAttribute THRESH LAMBDA MAX_TRAIN_NUM attrsCnt
      usrs4Train d.usr2NonzeroCols uTrain
    let dataStats1 := fits.foldl
      (fun ds f => ext.handlePrediction ds uTrain uValid f) dataStats0
    let res := collectStats ext.getters d.usr2NonzeroCols totalLabelsNum
      rlPairsCnt dataStats1 written
    .ok (d, res.2)

/-- The fold loop of `main` (svd_sing.py line 123,
`for ind in range(foldNum)`), threading the CSV-write log; an exception
escaping an iteration aborts the loop (and `main`). -/
def mainLoop (ext : ExternalFns) (SVD_K_NUM MAX_TRAIN_NUM : Nat)
    (LAMBDA THRESH : Rat) (attrsCnt totalLabelsNum rlPairsCnt : Nat)
    (d : MainData) (kfolds : List (List Nat)) (foldNum : Nat) :
    Except PyError (List StatsRecord) :=
  (List.range foldNum).foldlM
    (fun written ind =>
      (foldIter ext SVD_K_NUM MAX_TRAIN_NUM LAMBDA THRESH attrsCnt
        totalLabelsNum rlPairsCnt d kfolds ind written).map (·.2))
    []

/-! ## Theorems -/

/-- Claim C4: in every fold, `uTrain` is exactly the first
`len(usrs4Train)` rows of `uAll` and `uValid` exactly the remaining
rows: the two slices together cover every row of `uAll` in order, their
lengths add up, and each slice reads the corresponding disjoint range
of row indices of `uAll`. -/
theorem C4_embedding_row_slices (uAll : List Row) (usrs4Train : List Int) :
    uTrainOf uAll usrs4Train ++ uValidOf uAll usrs4Train = uAll ∧
    (uTrainOf uAll usrs4Train).length = min usrs4Train.length uAll.length ∧
    (uTrainOf uAll usrs4Train).length + (uValidOf uAll usrs4Train).length
      = uAll.length ∧
    (∀ i, i < (uTrainOf uAll usrs4Train).length →
      (uTrainOf uAll usrs4Train).getD i [] = uAll.getD i []) ∧
    (∀ j, j < (uValidOf uAll usrs4Train).length →
      (uValidOf uAll usrs4Train).getD j []
        = uAll.getD (usrs4Train.length + j) []) := by
  refine ⟨List.take_append_drop _ _, by simp [uTrainOf], ?_, ?_, ?_⟩
  · simp [uTrainOf, uValidOf]; omega
  · intro i hi
    simp only [uTrainOf, List.length_take, lt_min_iff] at hi
    simp [uTrainOf, List.getD_eq_getElem?_getD, List.getElem?_take, hi.1]
  · intro j hj
    simp [uValidOf, List.getD_eq_getElem?_getD, List.getElem?_drop]

/-- Claim C5: the fold split is deterministic given the seed: two runs
of `main` with the same integer seed, the same `foldNum` and the same
unique-user count produce identical fold partitions (the global
generator state after `random.seed` is a function of the seed alone,
and `splitKfolds` consumes only that shuffle). -/
theorem C5_split_deterministic (alg : ShuffleAlg) (stateOfSeed : Int → Nat)
    (seed₁ seed₂ : Int) (n foldNum : Nat) (h : seed₁ = seed₂) :
    runSplit alg stateOfSeed seed₁ n foldNum
      = runSplit alg stateOfSeed seed₂ n foldNum := by
  rw [h]

/-- Witness for C5 at seed 42, `n = 3`, `foldNum = 2`, with the identity
shuffle. -/
theorem C5_split_deterministic_witness :
    (42 : Int) = 42 ∧
    runSplit ⟨fun _ l => l, fun _ _ => List.Perm.refl _⟩ (fun _ => 0) 42 3 2
      = runSplit ⟨fun _ l => l, fun _ _ => List.Perm.refl _⟩ (fun _ => 0) 42 3 2 :=
  ⟨rfl, C5_split_deterministic ⟨fun _ l => l, fun _ _ => List.Perm.refl _⟩
    (fun _ => 0) 42 42 3 2 rfl⟩

/-- The guarded SVD call fails with `ValueError` whenever the requested
number of singular values reaches the minimum matrix dimension. -/
theorem mainSVDStep_error (numerics : CSC → Nat → List Row × List Rat × List Row)
    (A : CSC) (k : Nat) (h : min A.rows A.cols ≤ k) :
    mainSVDStep numerics A k = .error .valueError := by
  unfold mainSVDStep svds
  rw [if_neg]
  rintro ⟨-, h2⟩
  omega

/-- Claim C8: if `SVD_K_NUM` is not smaller than the minimum dimension
of the sparse rating matrix built for the first fold, the SVD call
raises `ValueError` and `main` re-raises it after logging: the fold
loop (and hence `main`) ends in that error and never returns
normally. -/
theorem C8_svd_valueerror_reraised (ext : ExternalFns)
    (SVD_K_NUM MAX_TRAIN_NUM : Nat) (LAMBDA THRESH : Rat)
    (attrsCnt totalLabelsNum rlPairsCnt : Nat) (d : MainData)
    (kfolds : List (List Nat)) (foldNum : Nat) (h1 : 1 ≤ foldNum)
    (h : min (ext.loadToCSCMatrix d.ratings d.usrs
          ((getTrainValid kfolds 0 d.uniqUsrs).1
            ++ (getTrainValid kfolds 0 d.uniqUsrs).2) d.items).rows
        (ext.loadToCSCMatrix d.ratings d.usrs
          ((getTrainValid kfolds 0 d.uniqUsrs).1
            ++ (getTrainValid kfolds 0 d.uniqUsrs).2) d.items).cols
        ≤ SVD_K_NUM) :
    mainLoop ext SVD_K_NUM MAX_TRAIN_NUM LAMBDA THRESH attrsCnt
        totalLabelsNum rlPairsCnt d kfolds foldNum
      = .error .valueError ∧
    ∀ r, mainLoop ext SVD_K_NUM MAX_TRAIN_NUM LAMBDA THRESH attrsCnt
        totalLabelsNum rlPairsCnt d kfolds foldNum ≠ .ok r := by
  have hfold : foldIter ext SVD_K_NUM MAX_TRAIN_NUM LAMBDA THRESH attrsCnt
      totalLabelsNum rlPairsCnt d kfolds 0 [] = .error .valueError := by
    unfold foldIter
    simp only [mainSVDStep_error _ _ _ h]
  obtain ⟨m, rfl⟩ : ∃ m, foldNum = m + 1 := ⟨foldNum - 1, by omega⟩
  have hmain : mainLoop ext SVD_K_NUM MAX_TRAIN_NUM LAMBDA THRESH attrsCnt
      totalLabelsNum rlPairsCnt d kfolds (m + 1) = .error .valueError := by
    unfold mainLoop
    rw [List.range_succ_eq_map, List.foldlM_cons, hfold]
    rfl
  exact ⟨hmain, fun r hr => by rw [hmain] at hr; exact Except.noConfusion hr⟩

/-- Witness for C8: a 2-by-3 rating matrix with `SVD_K_NUM = 3`. -/
theorem C8_svd_valueerror_reraised_witness :
    (1 ≤ 1 ∧
      min (CSC.mk 2 3).rows (CSC.mk 2 3).cols ≤ 3) ∧
    mainLoop
      ⟨fun _ _ _ _ => ⟨2, 3⟩, fun _ _ => ([], [], []), fun _ _ => [],
        fun ds _ _ _ => ds, ⟨fun _ => 0, fun _ => 0, fun _ => 0,
        fun _ => 0, fun _ => 0, fun _ => 0⟩⟩
      3 0 0 0 0 0 0 ⟨[], [], [], [], fun _ => none, fun _ => none⟩ [] 1
      = .error .valueError := by
  refine ⟨⟨by decide, by decide⟩, ?_⟩
  exact (C8_svd_valueerror_reraised _ 3 0 0 0 0 0 0 _ [] 1 (by decide)
    (by decide)).1

/-- Claim C7: the per-fold loop does not mutate the data shared across
folds: whatever the external helpers compute, a fold iteration that
completes normally returns the ratings, rating users, items,
unique-user list, `usr2labels` and `usr2NonzeroCols` unchanged (the
per-fold entities — sparse matrix, embeddings, dataStats, fits — are
local to the iteration, and only the CSV-write log is threaded on). -/
theorem C7_fold_preserves_shared_data (ext : ExternalFns)
    (SVD_K_NUM MAX_TRAIN_NUM : Nat) (LAMBDA THRESH : Rat)
    (attrsCnt totalLabelsNum rlPairsCnt : Nat) (d : MainData)
    (kfolds : List (List Nat)) (ind : Nat) (written : List StatsRecord)
    (p : MainData × List StatsRecord)
    (h : foldIter ext SVD_K_NUM MAX_TRAIN_NUM LAMBDA THRESH attrsCnt
      totalLabelsNum rlPairsCnt d kfolds ind written = .ok p) :
    p.1.usrs = d.usrs ∧ p.1.items = d.items ∧ p.1.ratings = d.ratings ∧
    p.1.uniqUsrs = d.uniqUsrs ∧ p.1.usr2labels = d.usr2labels ∧
    p.1.usr2NonzeroCols = d.usr2NonzeroCols := by
  rw [foldIter] at h
  dsimp only at h
  split at h
  · exact absurd h (by simp)
  · rw [Except.ok.injEq] at h
    subst h
    exact ⟨rfl, rfl, rfl, rfl, rfl, rfl⟩

/-- Witness for C7: a concrete fold iteration (2-by-2 matrix, one
singular value, empty data) that returns normally. -/
theorem C7_fold_preserves_shared_data_witness :
    foldIter
      ⟨fun _ _ _ _ => ⟨2, 2⟩, fun _ _ => ([], [], []), fun _ _ => [],
        fun ds _ _ _ => ds, ⟨fun _ => 0, fun _ => 0, fun _ => 0,
        fun _ => 0, fun _ => 0, fun _ => 0⟩⟩
      1 0 0 0 0 0 0 ⟨[], [], [], [], fun _ => none, fun _ => none⟩ [] 0 []
      = .ok (⟨[], [], [], [], fun _ => none, fun _ => none⟩, []) ∧
    ((⟨[], [], [], [], fun _ => none, fun _ => none⟩, []) :
        MainData × List StatsRecord).1.usrs
      = MainData.usrs ⟨[], [], [], [], fun _ => none, fun _ => none⟩ :=
  ⟨rfl,
    (C7_fold_preserves_shared_data
      ⟨fun _ _ _ _ => ⟨2, 2⟩, fun _ _ => ([], [], []), fun _ _ => [],
        fun ds _ _ _ => ds, ⟨fun _ => 0, fun _ => 0, fun _ => 0,
        fun _ => 0, fun _ => 0, fun _ => 0⟩⟩
      1 0 0 0 0 0 0 ⟨[], [], [], [], fun _ => none, fun _ => none⟩ [] 0 []
      (⟨[], [], [], [], fun _ => none, fun _ => none⟩, []) rfl).1⟩

/-- The stats-collection fold, started from arbitrary accumulators,
computes the map of `withKPIs` and appends it to the write log. -/
theorem collectStats_foldl (g : KPIGetters)
    (usr2NonzeroCols : Int → Option (List Nat))
    (totalLabelsNum rlPairsCnt : Nat) (dataStats : List StatsRecord)
    (a written : List StatsRecord) :
    dataStats.foldl
      (fun acc d =>
        let d' := withKPIs g usr2NonzeroCols totalLabelsNum rlPairsCnt d
        (acc.1 ++ [d'], acc.2 ++ [d']))
      (a, written) =
    (a ++ dataStats.map (withKPIs g usr2NonzeroCols totalLabelsNum rlPairsCnt),
     written ++ dataStats.map (withKPIs g usr2NonzeroCols totalLabelsNum rlPairsCnt)) := by
  induction dataStats generalizing a written with
  | nil => simp
  | cons d ds ih =>
    simp only [List.foldl_cons, List.map_cons, ih, List.append_assoc,
      List.cons_append, List.nil_append, List.singleton_append]

/-- Claim C2: per fold, the metrics collector computes exactly the six
metrics micro-F1, one-error, ranking loss, coverage, average precision
and Hamming loss for each stats record (each value being the
corresponding getter applied to that record's `KPIArgs`) and persists
every record through the state validator's CSV writer during the loop,
i.e. before the fold ends. -/
theorem C2_six_metrics_persisted (g : KPIGetters)
    (usr2NonzeroCols : Int → Option (List Nat))
    (totalLabelsNum rlPairsCnt : Nat) (dataStats : List StatsRecord)
    (written : List StatsRecord) :
    (collectStats g usr2NonzeroCols totalLabelsNum rlPairsCnt dataStats written).1
      = dataStats.map (withKPIs g usr2NonzeroCols totalLabelsNum rlPairsCnt) ∧
    (collectStats g usr2NonzeroCols totalLabelsNum rlPairsCnt dataStats written).2
      = written
        ++ dataStats.map (withKPIs g usr2NonzeroCols totalLabelsNum rlPairsCnt) ∧
    ∀ d ∈ dataStats,
      ((withKPIs g usr2NonzeroCols totalLabelsNum rlPairsCnt d).KPIs.map
          Prod.fst
        = ["microF1", "oneError", "RL", "coverage", "avgPrec", "hammingLoss"]) ∧
      ((withKPIs g usr2NonzeroCols totalLabelsNum rlPairsCnt d).KPIs.lookup
          "microF1"
        = some (g.getMicroF1ByCol
            (argsOf usr2NonzeroCols totalLabelsNum rlPairsCnt d))) ∧
      ((withKPIs g usr2NonzeroCols totalLabelsNum rlPairsCnt d).KPIs.lookup
          "oneError"
        = some (g.getOneError
            (argsOf usr2NonzeroCols totalLabelsNum rlPairsCnt d))) ∧
      ((withKPIs g usr2NonzeroCols totalLabelsNum rlPairsCnt d).KPIs.lookup
          "RL"
        = some (g.getRL (argsOf usr2NonzeroCols totalLabelsNum rlPairsCnt d))) ∧
      ((withKPIs g usr2NonzeroCols totalLabelsNum rlPairsCnt d).KPIs.lookup
          "coverage"
        = some (g.getCoverage
            (argsOf usr2NonzeroCols totalLabelsNum rlPairsCnt d))) ∧
      ((withKPIs g usr2NonzeroCols totalLabelsNum rlPairsCnt d).KPIs.lookup
          "avgPrec"
        = some (g.getAvgPrecision
            (argsOf usr2NonzeroCols totalLabelsNum rlPairsCnt d))) ∧
      ((withKPIs g usr2NonzeroCols totalLabelsNum rlPairsCnt d).KPIs.lookup
          "hammingLoss"
        = some (g.getHammingLoss
            (argsOf usr2NonzeroCols totalLabelsNum rlPairsCnt d))) ∧
      withKPIs g usr2NonzeroCols totalLabelsNum rlPairsCnt d
        ∈ (collectStats g usr2NonzeroCols totalLabelsNum rlPairsCnt dataStats
            written).2 := by
  have hfold := collectStats_foldl g usr2NonzeroCols totalLabelsNum rlPairsCnt
    dataStats [] written
  refine ⟨?_, ?_, ?_⟩
  · unfold collectStats
    rw [hfold]
    simp
  · unfold collectStats
    rw [hfold]
  · intro d hd
    refine ⟨rfl, rfl, rfl, rfl, rfl, rfl, rfl, ?_⟩
    unfold collectStats
    rw [hfold]
    exact List.mem_append_right _ (List.mem_map_of_mem _ hd)

/-- Claim C3, counterexample to the claim as stated: with one attribute
and three training users whose nonzero column for that attribute is 0,
1 and 2 respectively (as produced, e.g., by `get_nonZeroCols` on the
one-hot rows `1,0,0` / `0,1,0` / `0,0,1`), the single fitted classifier
has three distinct target classes, so it is not a binary one — and its
configuration explicitly selects the `multinomial` scheme. -/
theorem C3_counterexample_not_binary :
    ∃ f ∈ trainPerAttribute 1 1 100 1 [1, 2, 3]
        (fun u => if u = 1 then some [0] else if u = 2 then some [1]
                  else some [2]) [[1]],
      ¬ isBinaryFit f ∧ f.y = [0, 1, 2] ∧
        f.config.multiClass = "multinomial" := by
  refine ⟨_, List.mem_singleton.mpr rfl, ?_, rfl, rfl⟩
  intro h
  simp only [isBinaryFit] at h
  revert h
  decide

/-- Claim C3 (amended): in every fold, the driver trains one
logistic-regression classifier per label attribute, configured with the
multinomial (not binary one-versus-rest) scheme: the number of
classifiers fitted equals the dataloader's attribute count, classifier
`ind` is fitted on `uTrain` with the single attribute's per-user
nonzero-column values `[usr2NonzeroCols[usr][ind] for usr in
usrs4Train]` as targets, and carries `initLogReg`'s configuration
(`penalty='l2'`, `C=1/LAMBDA`, `solver='sag'`,
`multi_class='multinomial'`). -/
theorem C3_one_logreg_per_attribute (THRESH LAMBDA : Rat)
    (MAX_TRAIN_NUM attrsCnt : Nat) (usrs4Train : List Int)
    (usr2NonzeroCols : Int → Option (List Nat)) (uTrain : List Row) :
    (trainPerAttribute THRESH LAMBDA MAX_TRAIN_NUM attrsCnt usrs4Train
        usr2NonzeroCols uTrain).length = attrsCnt ∧
    ∀ ind, ind < attrsCnt →
      ((trainPerAttribute THRESH LAMBDA MAX_TRAIN_NUM attrsCnt usrs4Train
          usr2NonzeroCols uTrain).getD ind default).X = uTrain ∧
      ((trainPerAttribute THRESH LAMBDA MAX_TRAIN_NUM attrsCnt usrs4Train
          usr2NonzeroCols uTrain).getD ind default).y
        = usrs4Train.map (fun usr =>
            ((usr2NonzeroCols usr).getD []).getD ind 0) ∧
      ((trainPerAttribute THRESH LAMBDA MAX_TRAIN_NUM attrsCnt usrs4Train
          usr2NonzeroCols uTrain).getD ind default).config
        = initLogReg THRESH LAMBDA MAX_TRAIN_NUM ∧
      ((trainPerAttribute THRESH LAMBDA MAX_TRAIN_NUM attrsCnt usrs4Train
          usr2NonzeroCols uTrain).getD ind default).config.multiClass
        = "multinomial" := by
  constructor
  · simp [trainPerAttribute]
  · intro ind hind
    have hget : (trainPerAttribute THRESH LAMBDA MAX_TRAIN_NUM attrsCnt
        usrs4Train usr2NonzeroCols uTrain).getD ind default =
        { config := initLogReg THRESH LAMBDA MAX_TRAIN_NUM,
          X := uTrain,
          y := usrs4Train.map (fun usr =>
            ((usr2NonzeroCols usr).getD []).getD ind 0) } := by
      unfold trainPerAttribute
      rw [List.getD_eq_getElem?_getD, List.getElem?_map, List.getElem?_range hind]
      rfl
    rw [hget]
    exact ⟨rfl, rfl, rfl, rfl⟩

/-- Witness for C3 (amended) at one attribute, two users, unit
hyperparameters. -/
theorem C3_one_logreg_per_attribute_witness :
    (trainPerAttribute 1 1 100 1 [4, 5]
        (fun u => if u = 4 then some [0] else some [1]) [[1], [2]]).length
      = 1 ∧
    (0 < 1 →
      ((trainPerAttribute 1 1 100 1 [4, 5]
          (fun u => if u = 4 then some [0] else some [1])
          [[1], [2]]).getD 0 default).X = [[1], [2]] ∧
      ((trainPerAttribute 1 1 100 1 [4, 5]
          (fun u => if u = 4 then some [0] else some [1])
          [[1], [2]]).getD 0 default).y
        = [4, 5].map (fun usr =>
            (((fun u => if u = 4 then some [0] else some [1]) usr).getD
              []).getD 0 0) ∧
      ((trainPerAttribute 1 1 100 1 [4, 5]
          (fun u => if u = 4 then some [0] else some [1])
          [[1], [2]]).getD 0 default).config = initLogReg 1 1 100 ∧
      ((trainPerAttribute 1 1 100 1 [4, 5]
          (fun u => if u = 4 then some [0] else some [1])
          [[1], [2]]).getD 0 default).config.multiClass = "multinomial") :=
  ⟨(C3_one_logreg_per_attribute 1 1 100 1 [4, 5]
      (fun u => if u = 4 then some [0] else some [1]) [[1], [2]]).1,
   fun h => (C3_one_logreg_per_attribute 1 1 100 1 [4, 5]
      (fun u => if u = 4 then some [0] else some [1]) [[1], [2]]).2 0 h⟩

/-! ### Lemmas about `pushFirstOccs` and the load loop -/

theorem pushFirstOccs_cons (acc : List Int) (x : Int) (l : List Int) :
    pushFirstOccs acc (x :: l)
      = pushFirstOccs (if x ∈ acc then acc else acc ++ [x]) l := rfl

theorem pushFirstOccs_append (acc l₁ l₂ : List Int) :
    pushFirstOccs acc (l₁ ++ l₂) = pushFirstOccs (pushFirstOccs acc l₁) l₂ := by
  simp [pushFirstOccs, List.foldl_append]

theorem pushFirstOccs_prefix (l acc : List Int) :
    ∃ t, pushFirstOccs acc l = acc ++ t := by
  induction l generalizing acc with
  | nil => exact ⟨[], by simp [pushFirstOccs]⟩
  | cons x xs ih =>
    rw [pushFirstOccs_cons]
    by_cases hx : x ∈ acc
    · rw [if_pos hx]; exact ih acc
    · rw [if_neg hx]
      obtain ⟨t, ht⟩ := ih (acc ++ [x])
      exact ⟨x :: t, by rw [ht]; simp⟩

theorem mem_pushFirstOccs (l acc : List Int) (y : Int) :
    y ∈ pushFirstOccs acc l ↔ y ∈ acc ∨ y ∈ l := by
  induction l generalizing acc with
  | nil => simp [pushFirstOccs]
  | cons x xs ih =>
    rw [pushFirstOccs_cons]
    by_cases hx : x ∈ acc
    · rw [if_pos hx, ih]
      constructor
      · rintro (h | h)
        · exact Or.inl h
        · exact Or.inr (List.mem_cons_of_mem _ h)
      · rintro (h | h)
        · exact Or.inl h
        · rcases List.mem_cons.mp h with rfl | h
          · exact Or.inl hx
          · exact Or.inr h
    · rw [if_neg hx, ih]
      simp only [List.mem_append, List.mem_singleton, List.mem_cons]
      tauto

theorem pushFirstOccs_nodup (l acc : List Int) (h : acc.Nodup) :
    (pushFirstOccs acc l).Nodup := by
  induction l generalizing acc with
  | nil => exact h
  | cons x xs ih =>
    rw [pushFirstOccs_cons]
    by_cases hx : x ∈ acc
    · rw [if_pos hx]; exact ih acc h
    · rw [if_neg hx]
      refine ih _ ?_
      rw [List.nodup_append]
      exact ⟨h, List.nodup_singleton x, by
        intro a ha hb
        rw [List.mem_singleton] at hb
        subst hb
        exact hx ha⟩

theorem parsedItems_cons_none (line : Line) (rest : List Line)
    (h : parseRatingLine line = none) :
    parsedItems (line :: rest) = parsedItems rest := by
  simp [parsedItems, parsedRatings, List.filterMap_cons, h]

theorem parsedItems_cons_some (line : Line) (rest : List Line)
    (u i : Int) (h : parseRatingLine line = some (u, i)) :
    parsedItems (line :: rest) = i :: parsedItems rest := by
  simp [parsedItems, parsedRatings, List.filterMap_cons, h]

/-- A malformed rating line (one on which the `int()` conversions would
raise) is skipped by `load`, leaving the accumulated state unchanged. -/
theorem loadStep_skip (s : LoadState) (line : Line)
    (h : parseRatingLine line = none) : loadStep s line = s := by
  unfold loadStep
  rw [h]

theorem loadStep_itemsList (s : LoadState) (line : Line) (u i : Int)
    (h : parseRatingLine line = some (u, i)) :
    (loadStep s line).itemsList
      = if i ∈ s.itemsList then s.itemsList else s.itemsList ++ [i] := by
  unfold loadStep
  rw [h]

theorem loadLoop_itemsList_general (lines : List Line) (s : LoadState) :
    (lines.foldl loadStep s).itemsList
      = pushFirstOccs s.itemsList (parsedItems lines) := by
  induction lines generalizing s with
  | nil => simp [pushFirstOccs, parsedItems, parsedRatings]
  | cons line rest ih =>
    rw [List.foldl_cons]
    cases hp : parseRatingLine line with
    | none =>
      rw [loadStep_skip s line hp, parsedItems_cons_none line rest hp, ih]
    | some ui =>
      obtain ⟨u, i⟩ := ui
      rw [parsedItems_cons_some line rest u i hp, pushFirstOccs_cons, ih,
        loadStep_itemsList s line u i hp]

theorem loadLoop_itemsList (lines : List Line) :
    (loadLoop lines).itemsList = pushFirstOccs [] (parsedItems lines) :=
  loadLoop_itemsList_general lines initLoadState

/-! ### Lemmas about `enumDict` -/

theorem enumDict_nodup_eq (l : List Int) (h : l.Nodup) (i : Nat) (x : Int) :
    enumDict i l x = if x ∈ l then some (i + l.indexOf x) else none := by
  induction l generalizing i with
  | nil => simp [enumDict]
  | cons y ys ih =>
    rw [List.nodup_cons] at h
    show (match enumDict (i + 1) ys x with
      | some j => some j
      | none => if x = y then some i else none)
      = if x ∈ y :: ys then some (i + (y :: ys).indexOf x) else none
    rw [ih h.2]
    by_cases hmem : x ∈ ys
    · have hxy : y ≠ x := fun he => h.1 (he ▸ hmem)
      rw [if_pos hmem, if_pos (List.mem_cons_of_mem _ hmem),
        List.indexOf_cons_ne _ hxy]
      simp only [Option.some.injEq]
      omega
    · rw [if_neg hmem]
      by_cases hxy : x = y
      · subst hxy
        rw [if_pos (List.mem_cons_self x ys), List.indexOf_cons_self]
        simp
      · have hnot : x ∉ y :: ys := by
          rw [List.mem_cons]
          rintro (rfl | hm)
          · exact hxy rfl
          · exact hmem hm
        rw [if_neg hnot]
        simp [hxy]

/-! ### First-occurrence indexing -/

theorem dropWhile_ne_cons (l : List Int) (x : Int) (hx : x ∈ l) :
    ∃ rest, l.dropWhile (fun y => y != x) = x :: rest := by
  induction l with
  | nil => cases hx
  | cons a t ih =>
    by_cases hax : a = x
    · subst hax
      exact ⟨t, by simp [List.dropWhile_cons]⟩
    · have hxt : x ∈ t := by
        rcases List.mem_cons.mp hx with rfl | h
        · exact absurd rfl hax
        · exact h
      obtain ⟨rest, hr⟩ := ih hxt
      refine ⟨rest, ?_⟩
      rw [List.dropWhile_cons, if_pos (by simp [bne_iff_ne]; exact hax)]
      exact hr

theorem indexOf_append_singleton (A t : List Int) (x : Int) (hx : x ∉ A) :
    ((A ++ [x]) ++ t).indexOf x = A.length := by
  induction A with
  | nil => simp [List.indexOf_cons_self]
  | cons a A ih =>
    have hax : a ≠ x := fun h => hx (h ▸ List.mem_cons_self a A)
    have hxA : x ∉ A := fun h => hx (List.mem_cons_of_mem _ h)
    simp only [List.cons_append, List.length_cons]
    rw [List.indexOf_cons_ne _ hax, ih hxA]

/-- The index assigned to an item number by the first-occurrence fold:
the number of distinct item numbers seen strictly before its first
occurrence. -/
theorem indexOf_pushFirstOccs (l : List Int) (x : Int) (hx : x ∈ l) :
    (pushFirstOccs [] l).indexOf x
      = (pushFirstOccs [] (l.takeWhile (fun y => y != x))).length := by
  obtain ⟨rest, hrest⟩ := dropWhile_ne_cons l x hx
  have hsplit : l = l.takeWhile (fun y => y != x) ++ x :: rest := by
    conv_lhs => rw [← List.takeWhile_append_dropWhile (p := fun y => y != x) (l := l)]
    rw [hrest]
  have hxA : x ∉ pushFirstOccs [] (l.takeWhile (fun y => y != x)) := by
    rw [mem_pushFirstOccs]
    rintro (h | h)
    · cases h
    · have := List.mem_takeWhile_imp h
      simp [bne_iff_ne] at this
  conv_lhs => rw [hsplit]
  rw [pushFirstOccs_append, pushFirstOccs_cons, if_neg hxA]
  obtain ⟨t, ht⟩ := pushFirstOccs_prefix rest
    (pushFirstOccs [] (l.takeWhile (fun y => y != x)) ++ [x])
  rw [ht, indexOf_append_singleton _ _ _ hxA]

/-- Claim C9: for every rating file, the mapping returned by `load` is
a bijection between the distinct item numbers seen and the indices
`0..n-1`: the first-occurrence item list is duplicate-free; the mapping
sends exactly the seen item numbers to their index in that list; that
index is the number of distinct item numbers seen strictly before the
item's first occurrence; every index below `n` has a unique preimage;
and a malformed line is skipped, leaving the accumulated state
unchanged (so `load` never raises on it). -/
theorem C9_load_item_index_bijection (lines : List Line) :
    (pushFirstOccs [] (parsedItems lines)).Nodup ∧
    (∀ x i, (load lines).2 x = some i ↔
      x ∈ parsedItems lines ∧
      i = (pushFirstOccs [] (parsedItems lines)).indexOf x) ∧
    (∀ x, x ∈ parsedItems lines →
      (pushFirstOccs [] (parsedItems lines)).indexOf x
        = (pushFirstOccs []
            ((parsedItems lines).takeWhile (fun y => y != x))).length) ∧
    (∀ i, i < (pushFirstOccs [] (parsedItems lines)).length →
      ∃! x, (load lines).2 x = some i) ∧
    (∀ s line, parseRatingLine line = none → loadStep s line = s) := by
  have hN : (pushFirstOccs [] (parsedItems lines)).Nodup :=
    pushFirstOccs_nodup _ [] List.nodup_nil
  have hm : (load lines).2
      = enumDict 0 (pushFirstOccs [] (parsedItems lines)) := by
    have h0 : (load lines).2 = enumDict 0 (loadLoop lines).itemsList := rfl
    rw [h0, loadLoop_itemsList]
  have hmem : ∀ x, x ∈ pushFirstOccs [] (parsedItems lines)
      ↔ x ∈ parsedItems lines := by
    intro x
    rw [mem_pushFirstOccs]
    simp
  have hchar : ∀ x i, (load lines).2 x = some i ↔
      x ∈ parsedItems lines ∧
      i = (pushFirstOccs [] (parsedItems lines)).indexOf x := by
    intro x i
    rw [hm, enumDict_nodup_eq _ hN 0 x]
    by_cases hx : x ∈ pushFirstOccs [] (parsedItems lines)
    · rw [if_pos hx]
      simp only [Option.some.injEq, Nat.zero_add]
      rw [hmem] at hx
      constructor
      · intro h; exact ⟨hx, h.symm⟩
      · intro h; exact h.2.symm
    · rw [if_neg hx]
      rw [hmem] at hx
      constructor
      · intro h; exact absurd h (by simp)
      · intro h; exact absurd h.1 hx
  refine ⟨hN, hchar, fun x hx => indexOf_pushFirstOccs _ x hx, ?_,
    fun s line h => loadStep_skip s line h⟩
  intro i hi
  refine ⟨(pushFirstOccs [] (parsedItems lines))[i], ?_, ?_⟩
  · show (load lines).2 (pushFirstOccs [] (parsedItems lines))[i] = some i
    rw [hchar]
    refine ⟨?_, ?_⟩
    · rw [← hmem]
      exact List.getElem_mem hi
    · rw [List.indexOf_getElem hN i hi]
  · intro y hy
    rw [hchar] at hy
    obtain ⟨hy1, hy2⟩ := hy
    rw [← hmem] at hy1
    subst hy2
    exact (List.getElem_indexOf (l := pushFirstOccs [] (parsedItems lines))
      (a := y) (List.indexOf_lt_length.mpr hy1)).symm

/-! ### Lemmas for `get_labels` / `get_nonZeroCols` -/

/-- A successful `mapM id` (the embedded `[int(e) for e in line[1:]]`)
means every token was a successful conversion, in order. -/
theorem mapM_id_some (l : List (Option Int)) (es : List Int)
    (h : l.mapM id = some es) : l = es.map some := by
  induction l generalizing es with
  | nil =>
    simp only [List.mapM_nil, pure, Option.some.injEq] at h
    subst h
    rfl
  | cons a t ih =>
    rw [List.mapM_cons] at h
    cases a with
    | none => simp at h
    | some x =>
      cases ht : t.mapM id with
      | none => rw [ht] at h; simp at h
      | some xs =>
        rw [ht] at h
        simp only [id, Option.bind_eq_bind, Option.some_bind, pure,
          Option.some.injEq] at h
        subst h
        rw [List.map_cons, ih xs ht]

/-- Invariant preservation through the `get_labels` loop: a property
holding of every stored vector and of every successfully parsed line's
entry vector holds of every vector in the final dict. -/
theorem getLabels_invariant (P : List Int → Prop) (usrs : List Int)
    (lines : List Line) :
    ∀ (m0 m : Int → Option (List Int)),
    (∀ u l, m0 u = some l → P l) →
    lines.foldlM (getLabelsStep usrs) m0 = .ok m →
    (∀ line ∈ lines, ∀ es, line.tail.mapM id = some es → P es) →
    ∀ u l, m u = some l → P l := by
  induction lines with
  | nil =>
    intro m0 m h0 hok _
    simp only [List.foldlM_nil, pure, Except.pure, Except.ok.injEq] at hok
    subst hok
    exact h0
  | cons line rest ih =>
    intro m0 m h0 hok hwf
    rw [List.foldlM_cons] at hok
    cases hstep : getLabelsStep usrs m0 line with
    | error e =>
      rw [hstep] at hok
      exact absurd hok (by simp [Bind.bind, Except.bind])
    | ok m1 =>
      rw [hstep] at hok
      have hok' : rest.foldlM (getLabelsStep usrs) m1 = .ok m := hok
      refine ih m1 m ?_ hok'
        (fun l hl => hwf l (List.mem_cons_of_mem _ hl))
      intro u l hu
      unfold getLabelsStep at hstep
      split at hstep
      · exact absurd hstep (by simp)
      · split at hstep
        · split at hstep
          · exact absurd hstep (by simp)
          · rename_i es hes
            rw [Except.ok.injEq] at hstep
            subst hstep
            dsimp only at hu
            split at hu
            · rw [Option.some.injEq] at hu
              subst hu
              exact hwf line (List.mem_cons_self _ _) _ hes
            · exact h0 u l hu
        · rw [Except.ok.injEq] at hstep
          subst hstep
          exact h0 u l hu

/-- Claim C6, counterexample to the claim as stated: `get_labels`
performs no binarisation and no length check, so the accepted label
file consisting of the single line `7,0,5` maps user 7 to the vector
`[0, 5]`, whose length differs from `gettotalLabelsNum` and whose
second entry is neither 0 nor 1. -/
theorem C6_counterexample_raw_vector :
    ∃ m, get_labels [[some 7, some 0, some 5]] [7] = Except.ok m ∧
      m 7 = some [0, 5] ∧
      ¬ (([0, 5] : List Int).length = gettotalLabelsNum ∧
        ∀ e ∈ ([0, 5] : List Int), e = 0 ∨ e = 1) := by
  refine ⟨fun u => if u = 7 then some [0, 5] else none, rfl, rfl, ?_⟩
  rintro ⟨hlen, -⟩
  exact absurd hlen (by decide)

/-- Claim C6 (amended): `get_labels` stores, for each requested user
present in the file, the raw integer vector parsed from that user's
line — with no binarisation and no length check against
`gettotalLabelsNum`.  Consequently, whenever every line of the label
file carries the same number `L` of entries after the user id and each
entry is 0 or 1, every returned vector is a binary vector of the fixed
length `L`. -/
theorem C6_labels_fixed_length_binary (lines : List Line) (usrs : List Int)
    (L : Nat) (m : Int → Option (List Int))
    (hok : get_labels lines usrs = .ok m)
    (hwf : ∀ line ∈ lines, line.tail.length = L ∧
      ∀ t ∈ line.tail, t = some 0 ∨ t = some 1) :
    ∀ usr labels, m usr = some labels →
      labels.length = L ∧ ∀ e ∈ labels, e = 0 ∨ e = 1 := by
  intro usr labels hm
  refine getLabels_invariant
    (fun l => l.length = L ∧ ∀ e ∈ l, e = 0 ∨ e = 1) usrs lines
    (fun _ => none) m (fun u l h => absurd h (by simp)) hok ?_ usr labels hm
  intro line hline es hes
  have hl := mapM_id_some _ _ hes
  obtain ⟨h1, h2⟩ := hwf line hline
  constructor
  · rw [← h1, hl, List.length_map]
  · intro e he
    have hmem : some e ∈ line.tail := by
      rw [hl]
      exact List.mem_map_of_mem _ he
    rcases h2 _ hmem with h | h
    · exact Or.inl (Option.some.inj h)
    · exact Or.inr (Option.some.inj h)

/-- Witness for C6 (amended): a one-line binary label file with two
label entries. -/
theorem C6_labels_fixed_length_binary_witness :
    get_labels [[some 3, some 1, some 0]] [3]
      = Except.ok (fun u : Int => if u = 3 then some [1, 0] else none) ∧
    (∀ line ∈ ([[some 3, some 1, some 0]] : List Line),
      line.tail.length = 2 ∧ ∀ t ∈ line.tail, t = some 0 ∨ t = some 1) ∧
    (∀ (usr : Int) (labels : List Int),
      (fun u : Int => if u = 3 then some [1, 0] else none) usr = some labels →
      labels.length = 2 ∧ ∀ e ∈ labels, e = 0 ∨ e = 1) :=
  ⟨rfl, by decide,
    C6_labels_fixed_length_binary [[some 3, some 1, some 0]] [3] 2
      (fun u : Int => if u = 3 then some [1, 0] else none) rfl (by decide)⟩

/-- `nonzeroIdxFrom` computes the ascending nonzero positions, shifted
by its start index. -/
theorem nonzeroIdxFrom_eq_map (l : List Int) :
    ∀ i : Nat, nonzeroIdxFrom i l = (nonzeroPositions l).map (· + i) := by
  induction l with
  | nil => intro i; rfl
  | cons e es ih =>
    intro i
    have hpos : nonzeroPositions (e :: es)
        = (if e != 0 then [0] else [])
          ++ (nonzeroPositions es).map Nat.succ := by
      unfold nonzeroPositions
      rw [List.length_cons, List.range_succ_eq_map, List.filter_cons]
      have hcomp : ((fun j => (e :: es).getD j 0 != 0) ∘ Nat.succ)
          = (fun j => es.getD j 0 != 0) := by
        funext j
        simp [Function.comp, List.getD_cons_succ]
      rw [List.filter_map, hcomp]
      by_cases he : e = 0
      · simp [he]
      · simp [he]
    rw [hpos]
    have hfun : ∀ X : List Nat,
        (X.map Nat.succ).map (· + i) = X.map (· + (i + 1)) := by
      intro X
      rw [List.map_map]
      have : ((· + i) ∘ Nat.succ) = (fun j : Nat => j + (i + 1)) := by
        funext j
        simp only [Function.comp_apply]
        omega
      rw [this]
    by_cases he : e = 0
    · have hb : (e != 0) = false := by simp [he]
      show nonzeroIdxFrom i (e :: es) = _
      unfold nonzeroIdxFrom
      rw [hb]
      simp only [Bool.false_eq_true, if_false, hb, List.nil_append]
      rw [ih (i + 1), List.map_map]
      have : ((· + i) ∘ Nat.succ) = (fun j : Nat => j + (i + 1)) := by
        funext j
        simp only [Function.comp_apply]
        omega
      rw [this]
    · have hb : (e != 0) = true := by simp [he]
      show nonzeroIdxFrom i (e :: es) = _
      unfold nonzeroIdxFrom
      rw [hb]
      simp only [if_true, hb, List.singleton_append, List.map_cons]
      rw [ih (i + 1), List.map_map]
      have : ((· + i) ∘ Nat.succ) = (fun j : Nat => j + (i + 1)) := by
        funext j
        simp only [Function.comp_apply]
        omega
      rw [this]
      simp

/-- The nonzero-position list is strictly ascending. -/
theorem nonzeroPositions_sorted (l : List Int) :
    List.Sorted (· < ·) (nonzeroPositions l) :=
  List.Pairwise.filter _ (List.pairwise_lt_range _)

/-- Joint invariant of the `get_labels` and `get_nonZeroCols` loops:
every user stored by `get_labels` is a requested user whose
nonzero-column list in the other dict comes from the same (last) line
of the file. -/
theorem labels_nzc_invariant (usrs : List Int) (lines : List Line) :
    ∀ (m01 : Int → Option (List Int)) (m02 : Int → Option (List Nat))
      (m1 : Int → Option (List Int)) (m2 : Int → Option (List Nat)),
    (∀ u l, m01 u = some l → u ∈ usrs ∧ m02 u = some (nonzeroIdxFrom 0 l)) →
    lines.foldlM (getLabelsStep usrs) m01 = .ok m1 →
    lines.foldlM getNonZeroColsStep m02 = .ok m2 →
    ∀ u l, m1 u = some l → u ∈ usrs ∧ m2 u = some (nonzeroIdxFrom 0 l) := by
  induction lines with
  | nil =>
    intro m01 m02 m1 m2 hI h1 h2
    simp only [List.foldlM_nil, pure, Except.pure, Except.ok.injEq] at h1 h2
    subst h1
    subst h2
    exact hI
  | cons line rest ih =>
    intro m01 m02 m1 m2 hI h1 h2
    rw [List.foldlM_cons] at h1 h2
    cases hgetd : line.getD 0 none with
    | none =>
      have hs1 : getLabelsStep usrs m01 line = .error () := by
        unfold getLabelsStep
        rw [hgetd]
      rw [hs1] at h1
      exact absurd h1 (by simp [Bind.bind, Except.bind])
    | some usr =>
      cases hmapm : line.tail.mapM id with
      | none =>
        have hs2 : getNonZeroColsStep m02 line = .error () := by
          unfold getNonZeroColsStep
          rw [hgetd]
          show (match line.tail.mapM id with
            | none => Except.error ()
            | some es => Except.ok (fun u =>
                if u = usr then some (nonzeroIdxFrom 0 es) else m02 u)) = _
          rw [hmapm]
        rw [hs2] at h2
        exact absurd h2 (by simp [Bind.bind, Except.bind])
      | some es =>
        have hs2 : getNonZeroColsStep m02 line
            = .ok (fun u => if u = usr then some (nonzeroIdxFrom 0 es)
                else m02 u) := by
          unfold getNonZeroColsStep
          rw [hgetd]
          show (match line.tail.mapM id with
            | none => Except.error ()
            | some es => Except.ok (fun u =>
                if u = usr then some (nonzeroIdxFrom 0 es) else m02 u)) = _
          rw [hmapm]
        rw [hs2] at h2
        by_cases husr : usr ∈ usrs
        · have hs1 : getLabelsStep usrs m01 line
              = .ok (fun u => if u = usr then some es else m01 u) := by
            unfold getLabelsStep
            rw [hgetd]
            show (if usr ∈ usrs then
                match line.tail.mapM id with
                | none => Except.error ()
                | some labels => Except.ok (fun u =>
                    if u = usr then some labels else m01 u)
              else Except.ok m01) = _
            rw [if_pos husr, hmapm]
          rw [hs1] at h1
          refine ih _ _ m1 m2 ?_ h1 h2
          intro u l hu
          by_cases huu : u = usr
          · subst huu
            rw [if_pos rfl, Option.some.injEq] at hu
            subst hu
            exact ⟨husr, by rw [if_pos rfl]⟩
          · rw [if_neg huu] at hu
            obtain ⟨ha, hb⟩ := hI u l hu
            exact ⟨ha, by rw [if_neg huu]; exact hb⟩
        · have hs1 : getLabelsStep usrs m01 line = .ok m01 := by
            unfold getLabelsStep
            rw [hgetd]
            show (if usr ∈ usrs then
                match line.tail.mapM id with
                | none => Except.error ()
                | some labels => Except.ok (fun u =>
                    if u = usr then some labels else m01 u)
              else Except.ok m01) = _
            rw [if_neg husr]
          rw [hs1] at h1
          refine ih _ _ m1 m2 ?_ h1 h2
          intro u l hu
          obtain ⟨ha, hb⟩ := hI u l hu
          have huu : u ≠ usr := fun he => husr (he ▸ ha)
          exact ⟨ha, by rw [if_neg huu]; exact hb⟩

/-- Claim C10: `get_nonZeroCols` is consistent with `get_labels`: for
every label file on which both succeed and every user present in both
results, the nonzero-column list equals the ascending list of positions
at which that user's label vector is nonzero. -/
theorem C10_nonzero_cols_match_labels (lines : List Line) (usrs : List Int)
    (m1 : Int → Option (List Int)) (m2 : Int → Option (List Nat))
    (usr : Int) (labels : List Int) (cols : List Nat)
    (h1 : get_labels lines usrs = .ok m1)
    (h2 : get_nonZeroCols lines = .ok m2)
    (hl : m1 usr = some labels) (hc : m2 usr = some cols) :
    cols = nonzeroPositions labels ∧ List.Sorted (· < ·) cols := by
  obtain ⟨-, hcols⟩ := labels_nzc_invariant usrs lines (fun _ => none)
    (fun _ => none) m1 m2 (fun u l h => absurd h (by simp)) h1 h2 usr labels hl
  rw [hc, Option.some.injEq] at hcols
  have hx : cols = nonzeroIdxFrom 0 labels := hcols
  rw [hx, nonzeroIdxFrom_eq_map labels 0]
  constructor
  · simp
  · have : (nonzeroPositions labels).map (· + 0) = nonzeroPositions labels := by
      simp
    rw [this]
    exact nonzeroPositions_sorted labels

/-- Witness for C10 on the label file `3,1,0,2` with requested users
`[3]`: the nonzero columns of user 3 are `[0, 2]`. -/
theorem C10_nonzero_cols_match_labels_witness :
    get_labels [[some 3, some 1, some 0, some 2]] [3]
      = Except.ok (fun u : Int => if u = 3 then some [1, 0, 2] else none) ∧
    get_nonZeroCols [[some 3, some 1, some 0, some 2]]
      = Except.ok (fun u : Int => if u = 3 then some [0, 2] else none) ∧
    (fun u : Int => if u = 3 then some [1, 0, 2] else none) 3
      = some [1, 0, 2] ∧
    (fun u : Int => if u = 3 then some [0, 2] else none) 3 = some [0, 2] ∧
    (([0, 2] : List Nat) = nonzeroPositions [1, 0, 2] ∧
      List.Sorted (· < ·) ([0, 2] : List Nat)) :=
  ⟨rfl, rfl, rfl, rfl,
    C10_nonzero_cols_match_labels [[some 3, some 1, some 0, some 2]] [3]
      (fun u : Int => if u = 3 then some [1, 0, 2] else none)
      (fun u : Int => if u = 3 then some [0, 2] else none)
      3 [1, 0, 2] [0, 2] rfl rfl rfl rfl⟩

/-! ### Lemmas for the k-fold partitioner -/

theorem chunks_length (szs : List Nat) :
    ∀ l : List Nat, (chunks szs l).length = szs.length := by
  induction szs with
  | nil => intro l; rfl
  | cons sz szs ih =>
    intro l
    simp only [chunks, List.length_cons, ih]

theorem chunks_flatten (szs : List Nat) :
    ∀ l : List Nat, (chunks szs l).flatten = l.take szs.sum := by
  induction szs with
  | nil => intro l; simp [chunks]
  | cons sz szs ih =>
    intro l
    simp only [chunks, List.flatten_cons, ih, List.sum_cons, List.take_add]

theorem sum_map_indicator (q r : Nat) :
    ∀ k : Nat,
      ((List.range k).map (fun i => q + if i < r then 1 else 0)).sum
        = k * q + min r k := by
  intro k
  induction k with
  | zero => simp
  | succ k ih =>
    rw [List.range_succ, List.map_append, List.sum_append, ih]
    by_cases h : k < r
    · simp only [List.map_cons, List.map_nil, if_pos h, List.sum_cons,
        List.sum_nil]
      have h1 : min r k = k := by omega
      have h2 : min r (k + 1) = k + 1 := by omega
      rw [h1, h2]
      ring_nf
    · simp only [List.map_cons, List.map_nil, if_neg h, List.sum_cons,
        List.sum_nil]
      have h1 : min r k = r := by omega
      have h2 : min r (k + 1) = r := by omega
      rw [h1, h2]
      ring_nf

theorem foldSizes_sum (n k : Nat) (hk : 1 ≤ k) : (foldSizes n k).sum = n := by
  unfold foldSizes
  rw [sum_map_indicator]
  have hmod : n % k < k := Nat.mod_lt _ (by omega)
  have hmin : min (n % k) k = n % k := by omega
  rw [hmin]
  have := Nat.div_add_mod n k
  omega

theorem foldSizes_length (n k : Nat) : (foldSizes n k).length = k := by
  simp [foldSizes]

theorem map_getD_range (l : List Int) (d : Int) :
    (List.range l.length).map (fun i => l.getD i d) = l := by
  induction l with
  | nil => rfl
  | cons a t ih =>
    rw [List.length_cons, List.range_succ_eq_map, List.map_cons, List.map_map]
    have hc : ((fun i => (a :: t).getD i d) ∘ Nat.succ)
        = fun i => t.getD i d := by
      funext i
      simp [Function.comp, List.getD_cons_succ]
    rw [hc, ih, List.getD_cons_zero]

/-- The shuffled index list has length `n` and the fold chunks flatten
back to it. -/
theorem splitKfolds_flatten (n foldNum : Nat) (shuffle : List Nat → List Nat)
    (hk : 1 ≤ foldNum) (hperm : (shuffle (List.range n)).Perm (List.range n)) :
    (splitKfolds n foldNum shuffle).flatten = shuffle (List.range n) := by
  unfold splitKfolds
  rw [chunks_flatten, foldSizes_sum n foldNum hk]
  have hlen : (shuffle (List.range n)).length = n := by
    rw [hperm.length_eq, List.length_range]
  exact List.take_of_length_le (le_of_eq hlen)

/-- Claim C1: for every seed-derived shuffle (a permutation of the
index range), every `foldNum ≥ 1` and every duplicate-free unique-user
list, `splitKfolds` produces `foldNum` pairwise-disjoint validation
partitions whose union is the whole index set `0..n-1`, and in each of
the `foldNum` iterations the training and validation users returned by
`getTrainValid` are disjoint and together cover all unique users. -/
theorem C1_kfold_partition (n foldNum : Nat) (shuffle : List Nat → List Nat)
    (uniqUsrs : List Int) (hk : 1 ≤ foldNum)
    (hperm : (shuffle (List.range n)).Perm (List.range n))
    (hnd : uniqUsrs.Nodup) (hlen : uniqUsrs.length = n) :
    (splitKfolds n foldNum shuffle).length = foldNum ∧
    (splitKfolds n foldNum shuffle).Pairwise List.Disjoint ∧
    ((splitKfolds n foldNum shuffle).flatten).Perm (List.range n) ∧
    ∀ ind, ind < foldNum →
      ((getTrainValid (splitKfolds n foldNum shuffle) ind uniqUsrs).1).Disjoint
        (getTrainValid (splitKfolds n foldNum shuffle) ind uniqUsrs).2 ∧
      ((getTrainValid (splitKfolds n foldNum shuffle) ind uniqUsrs).1
        ++ (getTrainValid (splitKfolds n foldNum shuffle) ind
            uniqUsrs).2).Perm uniqUsrs := by
  subst hlen
  set kfolds := splitKfolds uniqUsrs.length foldNum shuffle with hkf
  have hflat : kfolds.flatten = shuffle (List.range uniqUsrs.length) :=
    splitKfolds_flatten uniqUsrs.length foldNum shuffle hk hperm
  have hflatperm : kfolds.flatten.Perm (List.range uniqUsrs.length) := by
    rw [hflat]
    exact hperm
  have hfnodup : kfolds.flatten.Nodup :=
    hflatperm.nodup_iff.mpr (List.nodup_range _)
  have hpw : kfolds.Pairwise List.Disjoint := (List.nodup_flatten.mp hfnodup).2
  have hlength : kfolds.length = foldNum := by
    rw [hkf]
    unfold splitKfolds
    rw [chunks_length, foldSizes_length]
  refine ⟨hlength, hpw, hflatperm, ?_⟩
  intro ind hind
  have hindlt : ind < kfolds.length := by
    rw [hlength]
    exact hind
  have hdecomp : kfolds
      = kfolds.take ind ++ kfolds[ind] :: kfolds.drop (ind + 1) := by
    conv_lhs => rw [← List.take_append_drop ind kfolds]
    rw [List.drop_eq_getElem_cons hindlt]
  have hgetD : kfolds.getD ind [] = kfolds[ind] := by
    rw [List.getD_eq_getElem?_getD, List.getElem?_eq_getElem hindlt]
    rfl
  have hidx : ((kfolds.take ind ++ kfolds.drop (ind + 1)).flatten
      ++ kfolds.getD ind []).Perm kfolds.flatten := by
    rw [hgetD, List.flatten_append]
    conv_rhs => rw [hdecomp]
    rw [List.flatten_append, List.flatten_cons, List.append_assoc]
    exact List.Perm.append_left _ List.perm_append_comm
  have hidx2 : ((kfolds.take ind ++ kfolds.drop (ind + 1)).flatten
      ++ kfolds.getD ind []).Perm (List.range uniqUsrs.length) :=
    hidx.trans hflatperm
  have husers : ((getTrainValid kfolds ind uniqUsrs).1
      ++ (getTrainValid kfolds ind uniqUsrs).2).Perm uniqUsrs := by
    show ((((kfolds.take ind ++ kfolds.drop (ind + 1)).flatten).map
        (fun i => uniqUsrs.getD i 0))
      ++ ((kfolds.getD ind []).map (fun i => uniqUsrs.getD i 0))).Perm uniqUsrs
    rw [← List.map_append]
    have hm := hidx2.map (fun i => uniqUsrs.getD i 0)
    rw [map_getD_range uniqUsrs 0] at hm
    exact hm
  have hnodup2 : ((getTrainValid kfolds ind uniqUsrs).1
      ++ (getTrainValid kfolds ind uniqUsrs).2).Nodup :=
    husers.nodup_iff.mpr hnd
  exact ⟨List.disjoint_of_nodup_append hnodup2, husers⟩

/-- Witness for C1: five users, two folds, identity shuffle. -/
theorem C1_kfold_partition_witness :
    (1 ≤ 2 ∧ (id (List.range 5)).Perm (List.range 5) ∧
      ([10, 20, 30, 40, 50] : List Int).Nodup ∧
      ([10, 20, 30, 40, 50] : List Int).length = 5) ∧
    ((splitKfolds 5 2 id).length = 2 ∧
    (splitKfolds 5 2 id).Pairwise List.Disjoint ∧
    ((splitKfolds 5 2 id).flatten).Perm (List.range 5) ∧
    ∀ ind, ind < 2 →
      ((getTrainValid (splitKfolds 5 2 id) ind
          ([10, 20, 30, 40, 50] : List Int)).1).Disjoint
        (getTrainValid (splitKfolds 5 2 id) ind
          ([10, 20, 30, 40, 50] : List Int)).2 ∧
      ((getTrainValid (splitKfolds 5 2 id) ind
          ([10, 20, 30, 40, 50] : List Int)).1
        ++ (getTrainValid (splitKfolds 5 2 id) ind
            ([10, 20, 30, 40, 50] : List Int)).2).Perm
        ([10, 20, 30, 40, 50] : List Int)) :=
  ⟨⟨by decide, List.Perm.refl _, by decide, rfl⟩,
    C1_kfold_partition 5 2 id ([10, 20, 30, 40, 50] : List Int)
      (by decide) (List.Perm.refl _) (by decide) rfl⟩

end SVDSing
